import Mathlib

/-!
Verification of the transaction-scanning and wallet-derivation logic of the
zcash-web-wallet repository (src/cli/src/scanner.rs and src/core/src/wallet.rs).

The orchestration code is embedded shallowly.  Cryptographic collaborators
(unified-container decoding, Orchard key material, authenticated note
decryption, BIP39 mnemonic handling, hierarchical key derivation) are modelled
as abstract, pure function bundles, following the spec, which treats them as
external interfaces.  Machine integers (u64) are modelled as Nat, reduced
modulo 2 ^ 64 where the program performs arithmetic on them.
-/

set_option autoImplicit false

namespace ZcashWallet

/-! ### Basic data model shared by both source files -/

/-- Model of zcash_protocol::consensus::Network. -/
inductive Network where
  | MainNetwork
  | TestNetwork
deriving DecidableEq

/-- Model of the scanner error taxonomy (the Rust code raises anyhow errors
with fixed messages; the spec names them InvalidEncoding,
UnknownProtocolVersion and UnrecognizedViewingKeyFormat). -/
inductive ScanError where
  | InvalidEncoding
  | UnknownProtocolVersion
  | UnrecognizedViewingKeyFormat
deriving DecidableEq

/-! ### Hex encoding and decoding (models the hex crate) -/

/-- Lowercase hex digit for a value below 16, as produced by hex::encode. -/
def hexDigitChar (n : Nat) : Char :=
  if n < 10 then Char.ofNat (48 + n) else Char.ofNat (87 + n)

/-- Two lowercase hex digits of one byte. -/
def hexEncodeByte (b : Nat) : List Char :=
  [hexDigitChar (b / 16 % 16), hexDigitChar (b % 16)]

/-- Model of hex::encode on a byte list. -/
def hexEncode (bs : List Nat) : String :=
  String.mk (bs.map hexEncodeByte).flatten

/-- Value of one hex digit character, accepting both cases, as hex::decode does. -/
def hexDigitVal (c : Char) : Option Nat :=
  if 48 ≤ c.toNat ∧ c.toNat ≤ 57 then some (c.toNat - 48)
  else if 97 ≤ c.toNat ∧ c.toNat ≤ 102 then some (c.toNat - 87)
  else if 65 ≤ c.toNat ∧ c.toNat ≤ 70 then some (c.toNat - 55)
  else none

/-- Model of hex::decode on the character list of the input: pairs of hex
digits become bytes; an odd length or a non-hex character is an error. -/
def hexDecodeChars : List Char → Option (List Nat)
  | [] => some []
  | [_] => none
  | c1 :: c2 :: rest =>
    match hexDigitVal c1, hexDigitVal c2, hexDecodeChars rest with
    | some h, some l, some tail => some ((h * 16 + l) :: tail)
    | _, _, _ => none

/-- Model of hex::decode on a string. -/
def hexDecode (s : String) : Option (List Nat) :=
  hexDecodeChars s.data

/-! ### Transaction data model

Model of the already-parsed zcash_primitives Transaction, restricted to the
fields the scanner reads.  An Orchard action additionally carries the data of
the note ciphertext it holds: the identity of the (prepared, exposed-scope)
incoming viewing key the ciphertext is encrypted to, and the plaintext fields
that a successful trial decryption recovers.  This models the authenticated
note encryption collaborator: decryption succeeds exactly for the matching
prepared key. -/

/-- Model of a transparent output: its u64 value (from a bounded Zatoshis). -/
structure TxOut where
  value : Nat
deriving DecidableEq

/-- Model of a Sapling spend description: its public 32-byte nullifier. -/
structure SaplingSpend where
  nullifier : List Nat
deriving DecidableEq

/-- Model of a Sapling output description: its public note commitment cmu. -/
structure SaplingOutput where
  cmu : List Nat
deriving DecidableEq

/-- Model of the Sapling bundle of a transaction. -/
structure SaplingBundle where
  shieldedSpends : List SaplingSpend
  shieldedOutputs : List SaplingOutput
deriving DecidableEq

/-- Model of an Orchard action: the public spend nullifier and note commitment
cmx, plus the ciphertext contents (recipient key identity and the plaintext
recovered on successful trial decryption). -/
structure OrchardAction where
  nullifier : List Nat
  cmx : List Nat
  encKey : Nat
  noteValue : Nat
  noteMemo : List Nat
  noteRecipientRepr : String
  noteNullifier : List Nat
deriving DecidableEq

/-- Model of a parsed transaction, restricted to what the scanner reads. -/
structure Transaction where
  txid : String
  transparentBundle : Option (List TxOut)
  saplingBundle : Option SaplingBundle
  orchardBundle : Option (List OrchardAction)
deriving DecidableEq

/-- The Sapling spends of a transaction (empty when the bundle is absent). -/
def saplingSpends (tx : Transaction) : List SaplingSpend :=
  match tx.saplingBundle with
  | some sb => sb.shieldedSpends
  | none => []

/-- The Orchard actions of a transaction (empty when the bundle is absent). -/
def orchardActions (tx : Transaction) : List OrchardAction :=
  match tx.orchardBundle with
  | some actions => actions
  | none => []

/-! ### Scanner result types (scanner.rs lines 11 to 48) -/

/-- A note found in a transaction (struct ScannedNote). -/
structure ScannedNote where
  output_index : Nat
  pool : String
  value : Nat
  commitment : String
  nullifier : Option String
  memo : Option String
  address : Option String
deriving DecidableEq

/-- A nullifier found in a transaction (struct SpentNullifier). -/
structure SpentNullifier where
  pool : String
  nullifier : String
deriving DecidableEq

/-- A transparent output record (struct TransparentOutput). -/
structure TransparentOutput where
  index : Nat
  value : Nat
  address : Option String
deriving DecidableEq

/-- Result of scanning a transaction (struct ScanResult). -/
structure ScanResult where
  txid : String
  notes : List ScannedNote
  spent_nullifiers : List SpentNullifier
  transparent_received : Nat
  transparent_outputs : List TransparentOutput
deriving DecidableEq

/-! ### Viewing-key collaborator model

The unified-container decoders (zcash_address::unified) and the Orchard key
operations are external cryptographic collaborators; they are modelled as an
abstract bundle of pure functions. -/

/-- Model of a typed item of a unified full viewing key container. -/
inductive FvkItem where
  | sapling (bytes : List Nat)
  | orchard (bytes : List Nat)
  | p2pkh (bytes : List Nat)
  | unknown (typecode : Nat) (bytes : List Nat)
deriving DecidableEq

/-- Model of a typed item of a unified incoming viewing key container. -/
inductive IvkItem where
  | sapling (bytes : List Nat)
  | orchard (bytes : List Nat)
  | p2pkh (bytes : List Nat)
  | unknown (typecode : Nat) (bytes : List Nat)
deriving DecidableEq

/-- Whether an FVK container item is the Sapling variant. -/
def FvkItem.isSaplingItem : FvkItem → Bool
  | .sapling _ => true
  | _ => false

/-- Whether an FVK container item is the Orchard variant. -/
def FvkItem.isOrchardItem : FvkItem → Bool
  | .orchard _ => true
  | _ => false

/-- Whether an FVK container item is the P2pkh variant. -/
def FvkItem.isP2pkhItem : FvkItem → Bool
  | .p2pkh _ => true
  | _ => false

/-- Whether an IVK container item is the Sapling variant. -/
def IvkItem.isSaplingItem : IvkItem → Bool
  | .sapling _ => true
  | _ => false

/-- Whether an IVK container item is the Orchard variant. -/
def IvkItem.isOrchardItem : IvkItem → Bool
  | .orchard _ => true
  | _ => false

/-- Whether an IVK container item is the P2pkh variant. -/
def IvkItem.isP2pkhItem : IvkItem → Bool
  | .p2pkh _ => true
  | _ => false

/-- Model of orchard::keys::FullViewingKey: an abstract key identified by the
prepared incoming viewing key it derives for the exposed (non-internal) scope. -/
structure OrchardFvk where
  ivkExposed : Nat
deriving DecidableEq

/-- The fields of an Orchard note plaintext recovered by trial decryption. -/
structure DecryptedNote where
  value : Nat
  recipientRepr : String
  memoBytes : List Nat
  nfBytes : List Nat
deriving DecidableEq

/-- Models zcash_note_encryption::try_note_decryption for the Orchard domain:
authenticated decryption succeeds exactly when the prepared incoming viewing
key matches the key the action ciphertext is encrypted to, and then recovers
the note plaintext (value, recipient, memo bytes) together with the nullifier
data the note derives under the matching full viewing key. -/
def tryNoteDecryption (preparedIvk : Nat) (a : OrchardAction) : Option DecryptedNote :=
  if a.encKey = preparedIvk then
    some ⟨a.noteValue, a.noteRecipientRepr, a.noteMemo, a.noteNullifier⟩
  else none

/-- Models orchard Note.nullifier applied with the full viewing key that
decrypted the note. -/
def noteNullifierBytes (n : DecryptedNote) (_fvk : OrchardFvk) : List Nat :=
  n.nfBytes

/-- Abstract bundle of the external textual-decoding collaborators the scanner
calls: unified-container decoding (zcash_address::unified Ufvk and Uivk),
Orchard full-viewing-key deserialization, and UTF-8 validation
(String::from_utf8, returning none on invalid UTF-8). -/
structure ScannerCrypto where
  ufvkDecode : String → Option (List FvkItem)
  uivkDecode : String → Option (List IvkItem)
  orchardFvkFromBytes : List Nat → Option OrchardFvk
  fromUtf8 : List Nat → Option String

/-! ### scanner.rs functions -/

/-- Model of BranchId (zcash_protocol::consensus::BranchId). -/
inductive BranchId where
  | Sprout
  | Overwinter
  | Sapling
  | Blossom
  | Heartwood
  | Canopy
  | Nu5
  | Nu6
deriving DecidableEq

/-- The fixed, newest-to-oldest branch list tried by parse_transaction
(scanner.rs lines 55 to 60). -/
def branchIds : List BranchId :=
  [BranchId.Nu6, BranchId.Nu5, BranchId.Canopy, BranchId.Heartwood]

/-- The trial loop of parse_transaction (scanner.rs lines 62 to 66): return
the transaction read under the first branch id that succeeds. -/
def tryBranches (read : List Nat → BranchId → Option Transaction)
    (bytes : List Nat) : List BranchId → Except ScanError Transaction
  | [] => Except.error ScanError.UnknownProtocolVersion
  | b :: rest =>
    match read bytes b with
    | some tx => Except.ok tx
    | none => tryBranches read bytes rest

/-- Model of parse_transaction (scanner.rs lines 51 to 69), parameterized by
the external Transaction::read collaborator.  The network argument is accepted
and ignored, as in the source. -/
def parse_transaction (read : List Nat → BranchId → Option Transaction)
    (tx_hex : String) (_network : Network) : Except ScanError Transaction :=
  match hexDecode tx_hex with
  | none => Except.error ScanError.InvalidEncoding
  | some bytes => tryBranches read bytes branchIds

/-- Model of extract_nullifiers (scanner.rs lines 72 to 96): one SpentNullifier
per Sapling spend, then one per Orchard action. -/
def extract_nullifiers (tx : Transaction) : List SpentNullifier :=
  (match tx.saplingBundle with
   | some sb => sb.shieldedSpends.map fun s =>
       SpentNullifier.mk "sapling" (hexEncode s.nullifier)
   | none => []) ++
  (match tx.orchardBundle with
   | some actions => actions.map fun a =>
       SpentNullifier.mk "orchard" (hexEncode a.nullifier)
   | none => [])

/-- The item loop of extract_orchard_fvk: return the first Orchard container
item whose bytes deserialize to a full viewing key; skip every other item. -/
def findOrchardFvk (c : ScannerCrypto) : List FvkItem → Option OrchardFvk
  | [] => none
  | FvkItem.orchard b :: rest =>
    match c.orchardFvkFromBytes b with
    | some fvk => some fvk
    | none => findOrchardFvk c rest
  | _ :: rest => findOrchardFvk c rest

/-- Model of extract_orchard_fvk (scanner.rs lines 99 to 110): only the UFVK
container format is attempted; any other input yields no key. -/
def extract_orchard_fvk (c : ScannerCrypto) (viewing_key : String) : Option OrchardFvk :=
  match c.ufvkDecode viewing_key with
  | some items => findOrchardFvk c items
  | none => none

/-- The item loop of parse_viewing_key_capabilities for a UFVK container
(scanner.rs lines 245 to 252): set one capability bit per recognized item
type, ignore unknown items. -/
def fvkCapsLoop : List FvkItem → Bool × Bool × Bool → Bool × Bool × Bool
  | [], caps => caps
  | item :: rest, (s, o, t) =>
    match item with
    | FvkItem.sapling _ => fvkCapsLoop rest (true, o, t)
    | FvkItem.orchard _ => fvkCapsLoop rest (s, true, t)
    | FvkItem.p2pkh _ => fvkCapsLoop rest (s, o, true)
    | FvkItem.unknown _ _ => fvkCapsLoop rest (s, o, t)

/-- The item loop of parse_viewing_key_capabilities for a UIVK container
(scanner.rs lines 263 to 270). -/
def ivkCapsLoop : List IvkItem → Bool × Bool × Bool → Bool × Bool × Bool
  | [], caps => caps
  | item :: rest, (s, o, t) =>
    match item with
    | IvkItem.sapling _ => ivkCapsLoop rest (true, o, t)
    | IvkItem.orchard _ => ivkCapsLoop rest (s, true, t)
    | IvkItem.p2pkh _ => ivkCapsLoop rest (s, o, true)
    | IvkItem.unknown _ _ => ivkCapsLoop rest (s, o, t)

/-- Model of parse_viewing_key_capabilities (scanner.rs lines 238 to 281):
try the UFVK container, then the UIVK container, then the legacy Sapling
text prefixes; otherwise fail.  The result triple is
(has_sapling, has_orchard, has_transparent). -/
def parse_viewing_key_capabilities (c : ScannerCrypto) (viewing_key : String) :
    Except ScanError (Bool × Bool × Bool) :=
  match c.ufvkDecode viewing_key with
  | some items => Except.ok (fvkCapsLoop items (false, false, false))
  | none =>
    match c.uivkDecode viewing_key with
    | some items => Except.ok (ivkCapsLoop items (false, false, false))
    | none =>
      if "zxview".data.isPrefixOf viewing_key.data
          || "zxviews".data.isPrefixOf viewing_key.data then
        Except.ok (true, false, false)
      else
        Except.error ScanError.UnrecognizedViewingKeyFormat

/-- The trailing-zero strip of the memo bytes (scanner.rs lines 189 to 197):
reverse, skip leading zeros, reverse back. -/
def stripTrailingZeros (bs : List Nat) : List Nat :=
  ((bs.reverse.dropWhile fun b => b == 0)).reverse

/-- One iteration of the Orchard action loop of scan_transaction (scanner.rs
lines 169 to 222): compute the commitment, attempt trial decryption when a
prepared key exists, and fill the optional fields from the plaintext. -/
def orchardScanNote (c : ScannerCrypto) (orchard_fvk : Option OrchardFvk)
    (prepared_ivk : Option Nat) (i : Nat) (a : OrchardAction) : ScannedNote :=
  match prepared_ivk with
  | none => ScannedNote.mk i "orchard" 0 (hexEncode a.cmx) none none none
  | some ivk =>
    match tryNoteDecryption ivk a with
    | none => ScannedNote.mk i "orchard" 0 (hexEncode a.cmx) none none none
    | some note =>
      let memo_trimmed := stripTrailingZeros note.memoBytes
      let memo := if memo_trimmed.isEmpty then none else c.fromUtf8 memo_trimmed
      let nullifier := orchard_fvk.map fun fvk => hexEncode (noteNullifierBytes note fvk)
      ScannedNote.mk i "orchard" note.value (hexEncode a.cmx) nullifier memo
        (some note.recipientRepr)

/-- The Orchard section of scan_transaction (scanner.rs lines 163 to 223):
prepare the incoming viewing key from the full viewing key (exposed scope) and
scan every action in order. -/
def orchardScanNotes (c : ScannerCrypto) (orchard_fvk : Option OrchardFvk)
    (actions : List OrchardAction) : List ScannedNote :=
  let prepared_ivk := orchard_fvk.map fun fvk => fvk.ivkExposed
  actions.enum.map fun p => orchardScanNote c orchard_fvk prepared_ivk p.1 p.2

/-- The Sapling section of scan_transaction (scanner.rs lines 145 to 160):
one note per shielded output, value zero, commitment from cmu, all optional
fields empty. -/
def saplingScanNotes (sb : SaplingBundle) : List ScannedNote :=
  sb.shieldedOutputs.enum.map fun p =>
    ScannedNote.mk p.1 "sapling" 0 (hexEncode p.2.cmu) none none none

/-- The transparent section of scan_transaction (scanner.rs lines 132 to 142):
one TransparentOutput per vout entry, with its index and u64 value; the
address is never decoded. -/
def transparentOutputsOf (tx : Transaction) (has_transparent : Bool) :
    List TransparentOutput :=
  if has_transparent then
    match tx.transparentBundle with
    | some vout => vout.enum.map fun p => TransparentOutput.mk p.1 p.2.value none
    | none => []
  else []

/-- The running u64 sum of transparent output values (scanner.rs line 135),
with u64 wrap-around made explicit. -/
def transparentReceivedOf (outs : List TransparentOutput) : Nat :=
  outs.foldl (fun acc o => (acc + o.value) % 2 ^ 64) 0

/-- The Sapling note block of scan_transaction, guarded by the has_sapling
capability bit and by the presence of the Sapling bundle. -/
def saplingSection (tx : Transaction) (has_sapling : Bool) : List ScannedNote :=
  if has_sapling then
    match tx.saplingBundle with
    | some sb => saplingScanNotes sb
    | none => []
  else []

/-- The Orchard note block of scan_transaction, guarded by the has_orchard
capability bit and by the presence of the Orchard bundle. -/
def orchardSection (c : ScannerCrypto) (tx : Transaction) (has_orchard : Bool)
    (orchard_fvk : Option OrchardFvk) : List ScannedNote :=
  if has_orchard then
    match tx.orchardBundle with
    | some actions => orchardScanNotes c orchard_fvk actions
    | none => []
  else []

/-- The body of scan_transaction after capability resolution has succeeded
(scanner.rs lines 128 to 234). -/
def scanWithCaps (c : ScannerCrypto) (tx : Transaction)
    (caps : Bool × Bool × Bool) (orchard_fvk : Option OrchardFvk) : ScanResult :=
  let touts := transparentOutputsOf tx caps.2.2
  ScanResult.mk tx.txid
    (saplingSection tx caps.1 ++ orchardSection c tx caps.2.1 orchard_fvk)
    (extract_nullifiers tx) (transparentReceivedOf touts) touts

/-- Model of scan_transaction (scanner.rs lines 114 to 235).  The network and
height arguments are accepted and ignored, as in the source. -/
def scan_transaction (c : ScannerCrypto) (tx : Transaction) (viewing_key : String)
    (_network : Network) (_height : Option Nat) : Except ScanError ScanResult :=
  match parse_viewing_key_capabilities c viewing_key with
  | Except.error e => Except.error e
  | Except.ok caps =>
    Except.ok (scanWithCaps c tx caps (extract_orchard_fvk c viewing_key))

/-! ### wallet.rs data model and functions -/

/-- Model of the wallet error taxonomy (enum WalletError). -/
inductive WalletError where
  | InvalidSeedPhrase (msg : String)
  | MnemonicGeneration (msg : String)
  | SpendingKeyDerivation (msg : String)
  | AddressGeneration (msg : String)
deriving DecidableEq

/-- Information about a derived wallet (struct WalletInfo). -/
structure WalletInfo where
  seed_phrase : String
  network : String
  unified_address : String
  transparent_address : Option String
  unified_full_viewing_key : String
deriving DecidableEq

/-- Model of network_name (wallet.rs lines 47 to 52). -/
def network_name : Network → String
  | Network.MainNetwork => "mainnet"
  | Network.TestNetwork => "testnet"

/-- Abstract bundle of the BIP39 mnemonic collaborator (the bip39 crate):
entropy-to-mnemonic conversion, canonical re-serialization, seed derivation
with an empty passphrase, and normalized parsing with checksum validation.
The mnemonic type is abstract. -/
structure MnemonicCodec (M : Type) where
  fromEntropy : List Nat → Except String M
  toPhrase : M → String
  toSeed : M → List Nat
  parseNormalized : String → Except String M

/-- Abstract bundle of the hierarchical key-derivation and encoding
collaborators used by derive_wallet (zcash_keys, zcash_transparent): keys and
addresses are abstract handles. -/
structure WalletCrypto where
  uskFromSeed : Network → List Nat → Nat → Except String Nat
  toUnifiedFullViewingKey : Nat → Nat
  encodeUfvk : Nat → Network → String
  defaultAddress : Nat → Except String Nat
  encodeUa : Nat → Network → String
  ufvkTransparent : Nat → Option Nat
  deriveExposedIvk : Nat → Except String Nat
  ivkDefaultAddress : Nat → Nat
  encodeTransparentAddr : Nat → Network → String

/-- Model of derive_wallet (wallet.rs lines 103 to 141): derive the unified
spending key for account zero, convert and encode the full viewing key,
derive and encode the default unified address, and derive the optional
transparent address, tolerating a transparent derivation failure. -/
def derive_wallet (wc : WalletCrypto) (seed : List Nat) (seed_phrase : String)
    (network : Network) : Except WalletError WalletInfo :=
  let account := 0
  match wc.uskFromSeed network seed account with
  | Except.error e => Except.error (WalletError.SpendingKeyDerivation e)
  | Except.ok usk =>
    let ufvk := wc.toUnifiedFullViewingKey usk
    let ufvk_encoded := wc.encodeUfvk ufvk network
    match wc.defaultAddress ufvk with
    | Except.error e => Except.error (WalletError.AddressGeneration e)
    | Except.ok ua =>
      let ua_encoded := wc.encodeUa ua network
      let transparent_address :=
        match wc.ufvkTransparent ufvk with
        | some tfvk =>
          match wc.deriveExposedIvk tfvk with
          | Except.ok ivk => some (wc.encodeTransparentAddr (wc.ivkDefaultAddress ivk) network)
          | Except.error _ => none
        | none => none
      Except.ok (WalletInfo.mk seed_phrase (network_name network) ua_encoded
        transparent_address ufvk_encoded)

/-- Model of generate_wallet (wallet.rs lines 64 to 72): build the mnemonic
from the entropy, take its canonical phrase and seed, and derive. -/
def generate_wallet {M : Type} (mc : MnemonicCodec M) (wc : WalletCrypto)
    (entropy : List Nat) (network : Network) : Except WalletError WalletInfo :=
  match mc.fromEntropy entropy with
  | Except.error e => Except.error (WalletError.MnemonicGeneration e)
  | Except.ok m => derive_wallet wc (mc.toSeed m) (mc.toPhrase m) network

/-- Model of restore_wallet (wallet.rs lines 84 to 90): parse the trimmed
phrase with checksum validation, then derive from the canonical
re-serialization of the validated mnemonic. -/
def restore_wallet {M : Type} (mc : MnemonicCodec M) (wc : WalletCrypto)
    (seed_phrase : String) (network : Network) : Except WalletError WalletInfo :=
  match mc.parseNormalized seed_phrase.trim with
  | Except.error e => Except.error (WalletError.InvalidSeedPhrase e)
  | Except.ok m => derive_wallet wc (mc.toSeed m) (mc.toPhrase m) network

/-! ### Concrete fixtures used to instantiate the theorems -/

/-- Collaborator fixture: a UFVK container holding one Orchard item whose
bytes deserialize to the key with prepared exposed-scope IVK 5. -/
def cryptoA : ScannerCrypto where
  ufvkDecode := fun s => if s = "ufvkA" then some [FvkItem.orchard [1]] else none
  uivkDecode := fun _ => none
  orchardFvkFromBytes := fun b => if b = [1] then some (OrchardFvk.mk 5) else none
  fromUtf8 := fun _ => none

/-- An Orchard action holding a zero-valued note encrypted to key 5. -/
def actA : OrchardAction :=
  OrchardAction.mk [2] [0] 5 0 [] "addrA" [171]

/-- A transaction with a single Orchard action and nothing else. -/
def txA : Transaction :=
  Transaction.mk "txA" none none (some [actA])

/-- The scan result of txA under the matching full viewing key. -/
def rA : ScanResult :=
  ScanResult.mk "txA"
    [ScannedNote.mk 0 "orchard" 0 "00" (some "ab") none (some "addrA")]
    [SpentNullifier.mk "orchard" "02"] 0 []

/-- Collaborator fixture for the incoming-viewing-key scenario: the same
Orchard key material (prepared IVK 7) is reachable both through a UFVK
container (string ufvkB) and through a UIVK container (string uivkB). -/
def cryptoB : ScannerCrypto where
  ufvkDecode := fun s => if s = "ufvkB" then some [FvkItem.orchard [7]] else none
  uivkDecode := fun s => if s = "uivkB" then some [IvkItem.orchard [7]] else none
  orchardFvkFromBytes := fun b => if b = [7] then some (OrchardFvk.mk 7) else none
  fromUtf8 := fun _ => none

/-- An Orchard action holding a note of value 100 encrypted to key 7. -/
def actB : OrchardAction :=
  OrchardAction.mk [3] [4] 7 100 [] "addrB" [9]

/-- A transaction with a single Orchard action addressed to key 7. -/
def txB : Transaction :=
  Transaction.mk "txB" none none (some [actB])

/-- The scan result of txB under the full viewing key string. -/
def rBfull : ScanResult :=
  ScanResult.mk "txB"
    [ScannedNote.mk 0 "orchard" 100 "04" (some "09") none (some "addrB")]
    [SpentNullifier.mk "orchard" "03"] 0 []

/-- The scan result of txB under the incoming viewing key string. -/
def rBivk : ScanResult :=
  ScanResult.mk "txB"
    [ScannedNote.mk 0 "orchard" 0 "04" none none none]
    [SpentNullifier.mk "orchard" "03"] 0 []

/-- An empty transaction fixture. -/
def txC : Transaction :=
  Transaction.mk "txC" none none none

/-- A Transaction::read fixture that succeeds exactly on bytes [0] under
branch Nu5. -/
def readC : List Nat → BranchId → Option Transaction :=
  fun bytes b => if bytes = [0] ∧ b = BranchId.Nu5 then some txC else none

/-- A Transaction::read fixture that always fails. -/
def readCnone : List Nat → BranchId → Option Transaction :=
  fun _ _ => none

/-- A collaborator fixture recognizing no container format at all. -/
def cryptoN : ScannerCrypto where
  ufvkDecode := fun _ => none
  uivkDecode := fun _ => none
  orchardFvkFromBytes := fun _ => none
  fromUtf8 := fun _ => none

/-- Collaborator fixture: a UFVK container with Sapling, Orchard and
unrecognized items. -/
def cryptoD : ScannerCrypto where
  ufvkDecode := fun s =>
    if s = "ufvkD" then some [FvkItem.sapling [1], FvkItem.orchard [2], FvkItem.unknown 200 [3]]
    else none
  uivkDecode := fun s => if s = "uivkD" then some [IvkItem.p2pkh [4], IvkItem.unknown 201 [5]] else none
  orchardFvkFromBytes := fun _ => none
  fromUtf8 := fun _ => none

/-- A transaction fixture with one Sapling spend, one Sapling output and one
Orchard action. -/
def txE : Transaction :=
  Transaction.mk "txE" (some [TxOut.mk 11])
    (some (SaplingBundle.mk [SaplingSpend.mk [16]] [SaplingOutput.mk [32]]))
    (some [OrchardAction.mk [48] [64] 9 0 [] "addrE" [80]])

/-- Collaborator fixture: a UFVK container granting only the transparent
capability. -/
def cryptoF : ScannerCrypto where
  ufvkDecode := fun s => if s = "ufvkF" then some [FvkItem.p2pkh [1]] else none
  uivkDecode := fun _ => none
  orchardFvkFromBytes := fun _ => none
  fromUtf8 := fun _ => none

/-- A transaction fixture with two transparent outputs of values 5 and 7. -/
def txF : Transaction :=
  Transaction.mk "txF" (some [TxOut.mk 5, TxOut.mk 7]) none none

/-- Collaborator fixture: a UFVK container granting only the Sapling
capability. -/
def cryptoG : ScannerCrypto where
  ufvkDecode := fun s => if s = "ufvkG" then some [FvkItem.sapling [1]] else none
  uivkDecode := fun _ => none
  orchardFvkFromBytes := fun _ => none
  fromUtf8 := fun _ => none

/-- A transaction fixture with one Sapling output of commitment byte 255. -/
def txG : Transaction :=
  Transaction.mk "txG" none (some (SaplingBundle.mk [] [SaplingOutput.mk [255]])) none

/-- Collaborator fixture whose UTF-8 decoder recognizes the two bytes of the
text hi. -/
def cryptoM : ScannerCrypto where
  ufvkDecode := fun _ => none
  uivkDecode := fun _ => none
  orchardFvkFromBytes := fun _ => none
  fromUtf8 := fun bs => if bs = [104, 105] then some "hi" else none

/-- An Orchard action whose note carries the memo hi padded with zero bytes,
encrypted to key 3. -/
def actM : OrchardAction :=
  OrchardAction.mk [1] [2] 3 50 [104, 105, 0, 0] "addrM" [6]

/-- The plaintext recovered from actM by the matching key. -/
def dnM : DecryptedNote :=
  DecryptedNote.mk 50 "addrM" [104, 105, 0, 0] [6]

/-- Mnemonic codec fixture over Nat handles: every entropy maps to mnemonic 1,
whose canonical phrase parses back to 1. -/
def mcW : MnemonicCodec Nat where
  fromEntropy := fun _ => Except.ok 1
  toPhrase := fun _ => "phrase"
  toSeed := fun m => [m]
  parseNormalized := fun _ => Except.ok 1

/-- Wallet crypto fixture over Nat handles. -/
def wcW : WalletCrypto where
  uskFromSeed := fun _ _ _ => Except.ok 0
  toUnifiedFullViewingKey := fun u => u
  encodeUfvk := fun _ _ => "ufvk"
  defaultAddress := fun _ => Except.ok 0
  encodeUa := fun _ _ => "ua"
  ufvkTransparent := fun _ => none
  deriveExposedIvk := fun _ => Except.error "x"
  ivkDefaultAddress := fun i => i
  encodeTransparentAddr := fun _ _ => "t"

/-- The wallet produced by the mcW and wcW fixtures. -/
def wW : WalletInfo :=
  WalletInfo.mk "phrase" "mainnet" "ua" none "ufvk"

/-! ### Helper lemmas -/

theorem fvkCapsLoop_eq (items : List FvkItem) (s o t : Bool) :
    fvkCapsLoop items (s, o, t) =
      (s || items.any FvkItem.isSaplingItem, o || items.any FvkItem.isOrchardItem,
        t || items.any FvkItem.isP2pkhItem) := by
  induction items generalizing s o t with
  | nil => simp [fvkCapsLoop]
  | cons it rest ih =>
    cases it <;>
      simp [fvkCapsLoop, ih, FvkItem.isSaplingItem, FvkItem.isOrchardItem,
        FvkItem.isP2pkhItem, Bool.or_assoc]

theorem ivkCapsLoop_eq (items : List IvkItem) (s o t : Bool) :
    ivkCapsLoop items (s, o, t) =
      (s || items.any IvkItem.isSaplingItem, o || items.any IvkItem.isOrchardItem,
        t || items.any IvkItem.isP2pkhItem) := by
  induction items generalizing s o t with
  | nil => simp [ivkCapsLoop]
  | cons it rest ih =>
    cases it <;>
      simp [ivkCapsLoop, ih, IvkItem.isSaplingItem, IvkItem.isOrchardItem,
        IvkItem.isP2pkhItem, Bool.or_assoc]

theorem findOrchardFvk_any (c : ScannerCrypto) (items : List FvkItem) (fvk : OrchardFvk)
    (hfind : findOrchardFvk c items = some fvk) :
    items.any FvkItem.isOrchardItem = true := by
  induction items with
  | nil => simp [findOrchardFvk] at hfind
  | cons it rest ih =>
    cases it with
    | orchard b =>
      simp [FvkItem.isOrchardItem]
    | sapling b =>
      simp only [findOrchardFvk] at hfind
      simp [FvkItem.isOrchardItem, ih hfind]
    | p2pkh b =>
      simp only [findOrchardFvk] at hfind
      simp [FvkItem.isOrchardItem, ih hfind]
    | unknown tc b =>
      simp only [findOrchardFvk] at hfind
      simp [FvkItem.isOrchardItem, ih hfind]

theorem tryBranches_all_none (read : List Nat → BranchId → Option Transaction)
    (bytes : List Nat) (bs : List BranchId)
    (hall : ∀ b ∈ bs, read bytes b = none) :
    tryBranches read bytes bs = Except.error ScanError.UnknownProtocolVersion := by
  induction bs with
  | nil => rfl
  | cons b rest ih =>
    have hb : read bytes b = none := hall b (List.mem_cons_self b rest)
    simp only [tryBranches, hb]
    exact ih fun b2 hb2 => hall b2 (List.mem_cons_of_mem b hb2)

theorem tryBranches_first (read : List Nat → BranchId → Option Transaction)
    (bytes : List Nat) (pre post : List BranchId) (b : BranchId) (tx : Transaction)
    (hpre : ∀ b2 ∈ pre, read bytes b2 = none) (hb : read bytes b = some tx) :
    tryBranches read bytes (pre ++ b :: post) = Except.ok tx := by
  induction pre with
  | nil =>
    simp only [List.nil_append, tryBranches, hb]
  | cons p rest ih =>
    have hp : read bytes p = none := hpre p (List.mem_cons_self p rest)
    simp only [List.cons_append, tryBranches, hp]
    exact ih fun b2 hb2 => hpre b2 (List.mem_cons_of_mem p hb2)

theorem foldl_mod_sum (l : List TransparentOutput) (a : Nat) :
    l.foldl (fun acc o => (acc + o.value) % 2 ^ 64) (a % 2 ^ 64) =
      (a + (l.map fun o => o.value).sum) % 2 ^ 64 := by
  induction l generalizing a with
  | nil => simp
  | cons o rest ih =>
    simp only [List.foldl_cons, List.map_cons, List.sum_cons, Nat.mod_add_mod]
    rw [ih (a + o.value)]
    ring_nf

theorem transparentReceivedOf_eq (outs : List TransparentOutput) :
    transparentReceivedOf outs = (outs.map fun o => o.value).sum % 2 ^ 64 := by
  have h := foldl_mod_sum outs 0
  simpa [transparentReceivedOf, Nat.zero_mod] using h

theorem head_dropWhile_eq_false (p : Nat → Bool) (l : List Nat) (x : Nat)
    (hx : (l.dropWhile p).head? = some x) : p x = false := by
  induction l with
  | nil => simp [List.dropWhile] at hx
  | cons a rest ih =>
    by_cases hp : p a
    · rw [List.dropWhile_cons_of_pos hp] at hx
      exact ih hx
    · rw [List.dropWhile_cons_of_neg hp] at hx
      simp only [List.head?_cons, Option.some.injEq] at hx
      subst hx
      exact Bool.eq_false_iff.mpr hp

theorem stripTrailingZeros_maximal (bs : List Nat) :
    (∃ k, bs = stripTrailingZeros bs ++ List.replicate k 0) ∧
      ∀ x, (stripTrailingZeros bs).getLast? = some x → x ≠ 0 := by
  constructor
  · refine ⟨(bs.reverse.takeWhile fun b => b == 0).length, ?_⟩
    have hsplit : bs.reverse.takeWhile (fun b => b == 0) ++
        bs.reverse.dropWhile (fun b => b == 0) = bs.reverse :=
      List.takeWhile_append_dropWhile (fun b => b == 0) bs.reverse
    have hrep : bs.reverse.takeWhile (fun b => b == 0) =
        List.replicate (bs.reverse.takeWhile fun b => b == 0).length 0 := by
      apply List.eq_replicate_of_mem
      intro b hb
      have := List.mem_takeWhile_imp hb
      simpa using this
    have hrev : (bs.reverse.takeWhile fun b => b == 0).reverse =
        List.replicate (bs.reverse.takeWhile fun b => b == 0).length 0 := by
      conv_lhs => rw [hrep]
      rw [List.reverse_replicate]
    calc bs = bs.reverse.reverse := (List.reverse_reverse bs).symm
      _ = (bs.reverse.takeWhile (fun b => b == 0) ++
            bs.reverse.dropWhile (fun b => b == 0)).reverse := by rw [hsplit]
      _ = stripTrailingZeros bs ++ (bs.reverse.takeWhile fun b => b == 0).reverse := by
            rw [List.reverse_append]; rfl
      _ = stripTrailingZeros bs ++ List.replicate (bs.reverse.takeWhile
            fun b => b == 0).length 0 := by rw [hrev]
  · intro x hx
    have hhead : (bs.reverse.dropWhile fun b => b == 0).head? = some x := by
      rw [← List.getLast?_reverse]
      exact hx
    have := head_dropWhile_eq_false (fun b => b == 0) bs.reverse x hhead
    simpa using this

theorem orchardScanNote_pool (c : ScannerCrypto) (orchard_fvk : Option OrchardFvk)
    (prepared_ivk : Option Nat) (i : Nat) (a : OrchardAction) :
    (orchardScanNote c orchard_fvk prepared_ivk i a).pool = "orchard" := by
  cases prepared_ivk with
  | none => rfl
  | some ivk =>
    cases h : tryNoteDecryption ivk a with
    | none => simp [orchardScanNote, h]
    | some note => simp [orchardScanNote, h]

theorem saplingScanNotes_pool (sb : SaplingBundle) (x : ScannedNote)
    (hx : x ∈ saplingScanNotes sb) : x.pool = "sapling" := by
  simp only [saplingScanNotes, List.mem_map] at hx
  obtain ⟨p, _, hp⟩ := hx
  rw [← hp]

theorem derive_wallet_seed_phrase (wc : WalletCrypto) (seed : List Nat)
    (seed_phrase : String) (network : Network) (w : WalletInfo)
    (hw : derive_wallet wc seed seed_phrase network = Except.ok w) :
    w.seed_phrase = seed_phrase := by
  simp only [derive_wallet] at hw
  split at hw
  · exact absurd hw (by simp)
  · split at hw
    · exact absurd hw (by simp)
    · simp only [Except.ok.injEq] at hw
      rw [← hw]

theorem scan_transaction_ok_inv (c : ScannerCrypto) (tx : Transaction) (vk : String)
    (n : Network) (h : Option Nat) (r : ScanResult)
    (hr : scan_transaction c tx vk n h = Except.ok r) :
    ∃ caps, parse_viewing_key_capabilities c vk = Except.ok caps ∧
      r = scanWithCaps c tx caps (extract_orchard_fvk c vk) := by
  unfold scan_transaction at hr
  cases hcaps : parse_viewing_key_capabilities c vk with
  | error e => rw [hcaps] at hr; exact absurd hr (by simp)
  | ok caps =>
    rw [hcaps] at hr
    simp only [Except.ok.injEq] at hr
    exact ⟨caps, rfl, hr.symm⟩

theorem scan_transaction_ok (c : ScannerCrypto) (tx : Transaction) (vk : String)
    (n : Network) (h : Option Nat) (caps : Bool × Bool × Bool)
    (hcaps : parse_viewing_key_capabilities c vk = Except.ok caps) :
    scan_transaction c tx vk n h =
      Except.ok (scanWithCaps c tx caps (extract_orchard_fvk c vk)) := by
  unfold scan_transaction
  rw [hcaps]

theorem mem_orchardScanNotes_pool (c : ScannerCrypto) (orchard_fvk : Option OrchardFvk)
    (actions : List OrchardAction) (x : ScannedNote)
    (hx : x ∈ orchardScanNotes c orchard_fvk actions) : x.pool = "orchard" := by
  simp only [orchardScanNotes, List.mem_map] at hx
  obtain ⟨p, _, hp⟩ := hx
  rw [← hp]
  exact orchardScanNote_pool c orchard_fvk _ p.1 p.2

theorem mem_orchardSection_pool (c : ScannerCrypto) (tx : Transaction) (ho : Bool)
    (orchard_fvk : Option OrchardFvk) (x : ScannedNote)
    (hx : x ∈ orchardSection c tx ho orchard_fvk) : x.pool = "orchard" := by
  unfold orchardSection at hx
  split at hx
  · split at hx
    · exact mem_orchardScanNotes_pool c orchard_fvk _ x hx
    · exact absurd hx (List.not_mem_nil x)
  · exact absurd hx (List.not_mem_nil x)

theorem mem_saplingSection_pool (tx : Transaction) (hs : Bool) (x : ScannedNote)
    (hx : x ∈ saplingSection tx hs) : x.pool = "sapling" := by
  unfold saplingSection at hx
  split at hx
  · split at hx
    · exact saplingScanNotes_pool _ x hx
    · exact absurd hx (List.not_mem_nil x)
  · exact absurd hx (List.not_mem_nil x)

theorem notes_filter_orchard (c : ScannerCrypto) (tx : Transaction)
    (caps : Bool × Bool × Bool) (orchard_fvk : Option OrchardFvk) :
    (scanWithCaps c tx caps orchard_fvk).notes.filter
        (fun note => note.pool == "orchard") =
      orchardSection c tx caps.2.1 orchard_fvk := by
  have hnotes : (scanWithCaps c tx caps orchard_fvk).notes =
      saplingSection tx caps.1 ++ orchardSection c tx caps.2.1 orchard_fvk := rfl
  rw [hnotes, List.filter_append]
  have h1 : (saplingSection tx caps.1).filter (fun note => note.pool == "orchard") = [] := by
    rw [List.filter_eq_nil_iff]
    intro a ha
    rw [mem_saplingSection_pool tx caps.1 a ha]
    decide
  have h2 : (orchardSection c tx caps.2.1 orchard_fvk).filter
      (fun note => note.pool == "orchard") = orchardSection c tx caps.2.1 orchard_fvk := by
    rw [List.filter_eq_self]
    intro a ha
    rw [mem_orchardSection_pool c tx caps.2.1 orchard_fvk a ha]
    decide
  rw [h1, h2, List.nil_append]

theorem notes_filter_sapling (c : ScannerCrypto) (tx : Transaction)
    (caps : Bool × Bool × Bool) (orchard_fvk : Option OrchardFvk) :
    (scanWithCaps c tx caps orchard_fvk).notes.filter
        (fun note => note.pool == "sapling") =
      saplingSection tx caps.1 := by
  have hnotes : (scanWithCaps c tx caps orchard_fvk).notes =
      saplingSection tx caps.1 ++ orchardSection c tx caps.2.1 orchard_fvk := rfl
  rw [hnotes, List.filter_append]
  have h1 : (saplingSection tx caps.1).filter (fun note => note.pool == "sapling") =
      saplingSection tx caps.1 := by
    rw [List.filter_eq_self]
    intro a ha
    rw [mem_saplingSection_pool tx caps.1 a ha]
    decide
  have h2 : (orchardSection c tx caps.2.1 orchard_fvk).filter
      (fun note => note.pool == "sapling") = [] := by
    rw [List.filter_eq_nil_iff]
    intro a ha
    rw [mem_orchardSection_pool c tx caps.2.1 orchard_fvk a ha]
    decide
  rw [h1, h2, List.append_nil]

/-! ### Claim theorems -/

/-- C10: the result of parse_transaction does not depend on the network
argument, and the result of scan_transaction depends neither on the network
argument nor on the optional height argument: two calls differing only in
those arguments return equal results. -/
theorem scan_network_height_independent
    (read : List Nat → BranchId → Option Transaction) (tx_hex : String)
    (c : ScannerCrypto) (tx : Transaction) (vk : String)
    (n1 n2 : Network) (h1 h2 : Option Nat) :
    parse_transaction read tx_hex n1 = parse_transaction read tx_hex n2 ∧
      scan_transaction c tx vk n1 h1 = scan_transaction c tx vk n2 h2 :=
  ⟨rfl, rfl⟩

/-- C3: parse_transaction returns InvalidEncoding exactly when hex decoding
fails; otherwise it tries the fixed newest-to-oldest branch list
[Nu6, Nu5, Canopy, Heartwood], returns the transaction read under the first
branch tag that succeeds, and returns UnknownProtocolVersion when every tag
in the list fails. -/
theorem parse_transaction_trial_decode
    (read : List Nat → BranchId → Option Transaction) (tx_hex : String) (network : Network) :
    (hexDecode tx_hex = none →
      parse_transaction read tx_hex network = Except.error ScanError.InvalidEncoding) ∧
    (∀ bytes, hexDecode tx_hex = some bytes →
      (∀ early late b tx, branchIds = early ++ b :: late →
        (∀ b2 ∈ early, read bytes b2 = none) → read bytes b = some tx →
        parse_transaction read tx_hex network = Except.ok tx) ∧
      ((∀ b ∈ branchIds, read bytes b = none) →
        parse_transaction read tx_hex network =
          Except.error ScanError.UnknownProtocolVersion)) := by
  refine ⟨fun hnone => ?_, fun bytes hbytes =>
    ⟨fun early late b tx hsplit hearly hb => ?_, fun hall => ?_⟩⟩
  · simp [parse_transaction, hnone]
  · simp only [parse_transaction, hbytes]
    rw [hsplit]
    exact tryBranches_first read bytes early late b tx hearly hb
  · simp only [parse_transaction, hbytes]
    exact tryBranches_all_none read bytes branchIds hall

/-- Witness for C3: a read collaborator that succeeds only under Nu5 makes
parse_transaction return that parse, malformed hex is InvalidEncoding, and an
always-failing read collaborator gives UnknownProtocolVersion. -/
theorem parse_transaction_trial_decode_witness :
    parse_transaction readC "00" Network.MainNetwork = Except.ok txC ∧
    parse_transaction readC "zz" Network.MainNetwork =
      Except.error ScanError.InvalidEncoding ∧
    parse_transaction readCnone "00" Network.MainNetwork =
      Except.error ScanError.UnknownProtocolVersion := by
  refine ⟨?_, ?_, ?_⟩
  · exact ((parse_transaction_trial_decode readC "00" Network.MainNetwork).2 [0]
      (by decide)).1 [BranchId.Nu6] [BranchId.Canopy, BranchId.Heartwood]
      BranchId.Nu5 txC rfl (by decide) (by decide)
  · exact (parse_transaction_trial_decode readC "zz" Network.MainNetwork).1 (by decide)
  · exact ((parse_transaction_trial_decode readCnone "00" Network.MainNetwork).2 [0]
      (by decide)).2 (by decide)

/-- C4: capability resolution tries the UFVK container first, then the UIVK
container, then the legacy Sapling text prefixes; for a container it sets one
capability bit per recognized typed item and ignores unrecognized items; the
legacy prefix grants exactly the pool-A (Sapling) capability; if none of the
three formats match it fails with UnrecognizedViewingKeyFormat. -/
theorem parse_viewing_key_capabilities_order (c : ScannerCrypto) (vk : String) :
    (∀ items, c.ufvkDecode vk = some items →
      parse_viewing_key_capabilities c vk = Except.ok
        (items.any FvkItem.isSaplingItem, items.any FvkItem.isOrchardItem,
          items.any FvkItem.isP2pkhItem)) ∧
    (c.ufvkDecode vk = none → ∀ items, c.uivkDecode vk = some items →
      parse_viewing_key_capabilities c vk = Except.ok
        (items.any IvkItem.isSaplingItem, items.any IvkItem.isOrchardItem,
          items.any IvkItem.isP2pkhItem)) ∧
    (c.ufvkDecode vk = none → c.uivkDecode vk = none →
      ("zxview".data.isPrefixOf vk.data || "zxviews".data.isPrefixOf vk.data) = true →
      parse_viewing_key_capabilities c vk = Except.ok (true, false, false)) ∧
    (c.ufvkDecode vk = none → c.uivkDecode vk = none →
      ("zxview".data.isPrefixOf vk.data || "zxviews".data.isPrefixOf vk.data) = false →
      parse_viewing_key_capabilities c vk =
        Except.error ScanError.UnrecognizedViewingKeyFormat) := by
  refine ⟨fun items hu => ?_, fun hu items hi => ?_, fun hu hi hp => ?_, fun hu hi hp => ?_⟩
  · simp [parse_viewing_key_capabilities, hu, fvkCapsLoop_eq]
  · simp [parse_viewing_key_capabilities, hu, hi, ivkCapsLoop_eq]
  · simp [parse_viewing_key_capabilities, hu, hi, hp]
  · simp [parse_viewing_key_capabilities, hu, hi, hp]

/-- Witness for C4: a UFVK container with Sapling, Orchard and unknown items
gives (true, true, false); a UIVK container with a P2pkh and an unknown item
gives (false, false, true); a legacy prefixed key gives (true, false, false);
an unrecognized string fails. -/
theorem parse_viewing_key_capabilities_order_witness :
    parse_viewing_key_capabilities cryptoD "ufvkD" = Except.ok (true, true, false) ∧
    parse_viewing_key_capabilities cryptoD "uivkD" = Except.ok (false, false, true) ∧
    parse_viewing_key_capabilities cryptoN "zxviewsQ" = Except.ok (true, false, false) ∧
    parse_viewing_key_capabilities cryptoN "nothing" =
      Except.error ScanError.UnrecognizedViewingKeyFormat := by
  refine ⟨?_, ?_, ?_, ?_⟩
  · rw [(parse_viewing_key_capabilities_order cryptoD "ufvkD").1
      [FvkItem.sapling [1], FvkItem.orchard [2], FvkItem.unknown 200 [3]] (by decide)]
    rfl
  · rw [(parse_viewing_key_capabilities_order cryptoD "uivkD").2.1 (by decide)
      [IvkItem.p2pkh [4], IvkItem.unknown 201 [5]] (by decide)]
    rfl
  · exact (parse_viewing_key_capabilities_order cryptoN "zxviewsQ").2.2.1
      rfl rfl (by decide)
  · exact (parse_viewing_key_capabilities_order cryptoN "nothing").2.2.2
      rfl rfl (by decide)

/-- C5: nullifier extraction emits exactly one SpentNullifier per Sapling
spend record (pool tag sapling) and per Orchard action record (pool tag
orchard), never fails and needs no viewing key; and scan_transaction with any
viewing key of a recognized format returns exactly that sequence as its
spent_nullifiers. -/
theorem extract_nullifiers_complete (tx : Transaction) :
    extract_nullifiers tx =
      ((saplingSpends tx).map fun s => SpentNullifier.mk "sapling" (hexEncode s.nullifier)) ++
      ((orchardActions tx).map fun a => SpentNullifier.mk "orchard" (hexEncode a.nullifier)) ∧
    (extract_nullifiers tx).length =
      (saplingSpends tx).length + (orchardActions tx).length ∧
    ∀ (c : ScannerCrypto) (vk : String) (n : Network) (h : Option Nat) (r : ScanResult),
      scan_transaction c tx vk n h = Except.ok r →
        r.spent_nullifiers = extract_nullifiers tx := by
  have h1 : extract_nullifiers tx =
      ((saplingSpends tx).map fun s => SpentNullifier.mk "sapling" (hexEncode s.nullifier)) ++
      ((orchardActions tx).map fun a => SpentNullifier.mk "orchard" (hexEncode a.nullifier)) := by
    unfold extract_nullifiers saplingSpends orchardActions
    cases tx.saplingBundle <;> cases tx.orchardBundle <;> rfl
  refine ⟨h1, ?_, ?_⟩
  · rw [h1]
    simp
  · intro c vk n h r hr
    obtain ⟨caps, hcaps, hr2⟩ := scan_transaction_ok_inv c tx vk n h r hr
    rw [hr2]
    rfl

/-- Witness for C5: a mixed transaction has one Sapling and one Orchard
nullifier, and scanning it under a legacy Sapling viewing key (which cannot
decrypt anything) returns exactly that sequence. -/
theorem extract_nullifiers_complete_witness :
    (extract_nullifiers txE).length =
      (saplingSpends txE).length + (orchardActions txE).length ∧
    (scanWithCaps cryptoN txE (true, false, false) none).spent_nullifiers =
      extract_nullifiers txE := by
  refine ⟨(extract_nullifiers_complete txE).2.1, ?_⟩
  exact (extract_nullifiers_complete txE).2.2 cryptoN "zxviewN" Network.MainNetwork none
    (scanWithCaps cryptoN txE (true, false, false) none) (by rfl)

/-- C6: in every ScanResult produced by scan_transaction,
transparent_received equals the sum of the values of transparent_outputs,
computed in u64 arithmetic (modulo 2 ^ 64); in particular it equals the exact
sum whenever that sum fits in 64 bits. -/
theorem transparent_received_eq_sum (c : ScannerCrypto) (tx : Transaction) (vk : String)
    (n : Network) (h : Option Nat) (r : ScanResult)
    (hr : scan_transaction c tx vk n h = Except.ok r) :
    r.transparent_received = (r.transparent_outputs.map fun o => o.value).sum % 2 ^ 64 ∧
    ((r.transparent_outputs.map fun o => o.value).sum < 2 ^ 64 →
      r.transparent_received = (r.transparent_outputs.map fun o => o.value).sum) := by
  obtain ⟨caps, hcaps, hr2⟩ := scan_transaction_ok_inv c tx vk n h r hr
  subst hr2
  have hrec : (scanWithCaps c tx caps (extract_orchard_fvk c vk)).transparent_received =
      transparentReceivedOf (transparentOutputsOf tx caps.2.2) := rfl
  have hout : (scanWithCaps c tx caps (extract_orchard_fvk c vk)).transparent_outputs =
      transparentOutputsOf tx caps.2.2 := rfl
  rw [hrec, hout, transparentReceivedOf_eq]
  exact ⟨rfl, fun hlt => Nat.mod_eq_of_lt hlt⟩

/-- Witness for C6: scanning a transaction with two transparent outputs of
values 5 and 7 under a transparent-capable key satisfies the sum invariant. -/
theorem transparent_received_eq_sum_witness :
    (scanWithCaps cryptoF txF (false, false, true) none).transparent_received =
      ((scanWithCaps cryptoF txF (false, false, true) none).transparent_outputs.map
        fun o => o.value).sum % 2 ^ 64 :=
  (transparent_received_eq_sum cryptoF txF "ufvkF" Network.MainNetwork none
    (scanWithCaps cryptoF txF (false, false, true) none) (by rfl)).1

/-- C7: when the resolved capabilities include pool A (Sapling) and the
transaction has a Sapling bundle, the Sapling notes of the scan result are,
in on-chain order, one ScannedNote per shielded output with value 0, the
public commitment, and empty nullifier, memo and address. -/
theorem sapling_outputs_enumerated (c : ScannerCrypto) (tx : Transaction) (vk : String)
    (n : Network) (h : Option Nat) (ho ht : Bool) (sb : SaplingBundle) (r : ScanResult)
    (hcaps : parse_viewing_key_capabilities c vk = Except.ok (true, ho, ht))
    (hsb : tx.saplingBundle = some sb)
    (hr : scan_transaction c tx vk n h = Except.ok r) :
    r.notes.filter (fun note => note.pool == "sapling") =
      sb.shieldedOutputs.enum.map fun p =>
        ScannedNote.mk p.1 "sapling" 0 (hexEncode p.2.cmu) none none none := by
  obtain ⟨caps, hcaps2, hr2⟩ := scan_transaction_ok_inv c tx vk n h r hr
  have hc : caps = (true, ho, ht) := Except.ok.inj (hcaps2.symm.trans hcaps)
  subst hc
  subst hr2
  rw [notes_filter_sapling]
  unfold saplingSection
  rw [hsb]
  rfl

/-- Witness for C7: a Sapling-capable key over a transaction with one Sapling
output of commitment byte 255 yields exactly one empty Sapling note. -/
theorem sapling_outputs_enumerated_witness :
    (scanWithCaps cryptoG txG (true, false, false) none).notes.filter
        (fun note => note.pool == "sapling") =
      [ScannedNote.mk 0 "sapling" 0 "ff" none none none] := by
  have := sapling_outputs_enumerated cryptoG txG "ufvkG" Network.MainNetwork none
    false false (SaplingBundle.mk [] [SaplingOutput.mk [255]])
    (scanWithCaps cryptoG txG (true, false, false) none) (by rfl) (by rfl) (by rfl)
  rw [this]
  rfl

/-- C8: for every 32-byte entropy value and network, feeding the seed phrase
of generate_wallet into restore_wallet on the same network returns the very
same CredentialBundle, given the canonical-phrase laws of the BIP39
collaborator (the canonical phrase re-parses, after trimming, to the same
mnemonic). -/
theorem generate_restore_roundtrip {M : Type} (mc : MnemonicCodec M) (wc : WalletCrypto)
    (entropy : List Nat) (network : Network) (m : M) (w : WalletInfo)
    (_hlen : entropy.length = 32)
    (hfe : mc.fromEntropy entropy = Except.ok m)
    (hpn : mc.parseNormalized ((mc.toPhrase m).trim) = Except.ok m)
    (hgen : generate_wallet mc wc entropy network = Except.ok w) :
    restore_wallet mc wc w.seed_phrase network = Except.ok w := by
  unfold generate_wallet at hgen
  rw [hfe] at hgen
  have hphrase : w.seed_phrase = mc.toPhrase m :=
    derive_wallet_seed_phrase wc (mc.toSeed m) (mc.toPhrase m) network w hgen
  unfold restore_wallet
  rw [hphrase, hpn]
  exact hgen

/-- Witness for C8 with the fixture codec and key deriver: restoring the
generated phrase reproduces the generated wallet. -/
theorem generate_restore_roundtrip_witness :
    restore_wallet mcW wcW wW.seed_phrase Network.MainNetwork = Except.ok wW :=
  generate_restore_roundtrip mcW wcW (List.replicate 32 0) Network.MainNetwork 1 wW
    (by decide) rfl rfl (by rfl)

/-- C9: for a pool-B action whose trial decryption succeeds, the memo bytes
are stripped of the maximal suffix of trailing zero bytes (the stripped list
is a prefix of the memo completed by zeros and does not end in a zero); the
memo field, when populated, holds exactly the text decoding of the stripped
bytes; it is left empty when the stripped bytes are not valid text or when no
bytes remain, and no error is ever raised. -/
theorem memo_strip_and_decode (c : ScannerCrypto) (orchard_fvk : Option OrchardFvk)
    (ivk : Nat) (i : Nat) (a : OrchardAction) (dn : DecryptedNote)
    (hdec : tryNoteDecryption ivk a = some dn) :
    (∃ k, dn.memoBytes = stripTrailingZeros dn.memoBytes ++ List.replicate k 0) ∧
    (∀ x, (stripTrailingZeros dn.memoBytes).getLast? = some x → x ≠ 0) ∧
    (∀ s, (orchardScanNote c orchard_fvk (some ivk) i a).memo = some s →
      c.fromUtf8 (stripTrailingZeros dn.memoBytes) = some s) ∧
    (c.fromUtf8 (stripTrailingZeros dn.memoBytes) = none →
      (orchardScanNote c orchard_fvk (some ivk) i a).memo = none) ∧
    ((stripTrailingZeros dn.memoBytes).isEmpty = true →
      (orchardScanNote c orchard_fvk (some ivk) i a).memo = none) := by
  obtain ⟨hmax, hlast⟩ := stripTrailingZeros_maximal dn.memoBytes
  have hmemo : (orchardScanNote c orchard_fvk (some ivk) i a).memo =
      (if (stripTrailingZeros dn.memoBytes).isEmpty then none
       else c.fromUtf8 (stripTrailingZeros dn.memoBytes)) := by
    simp [orchardScanNote, hdec]
  refine ⟨hmax, hlast, fun s hs => ?_, fun hn => ?_, fun he => ?_⟩
  · rw [hmemo] at hs
    by_cases he : (stripTrailingZeros dn.memoBytes).isEmpty
    · rw [if_pos he] at hs
      exact absurd hs (by simp)
    · rwa [if_neg he] at hs
  · rw [hmemo, hn]
    split <;> rfl
  · rw [hmemo, if_pos he]

/-- Witness for C9: the memo bytes of the fixture action decode to the text
hi after the two trailing zero bytes are stripped. -/
theorem memo_strip_and_decode_witness :
    cryptoM.fromUtf8 (stripTrailingZeros dnM.memoBytes) = some "hi" :=
  (memo_strip_and_decode cryptoM none 3 0 actM dnM rfl).2.2.1 "hi" rfl

/-- C1 (amended): scanning a transaction with N pool-B actions under a
matching full viewing key returns exactly N pool-B ScannedNote entries, and
every entry with non-zero value has a non-empty nullifier (the subset with
non-zero value is contained in the subset with non-empty nullifier; the two
need not be equal, since a zero-valued note can decrypt successfully and
still receive a nullifier). -/
theorem scan_orchard_count_and_nullifier (c : ScannerCrypto) (tx : Transaction)
    (vk : String) (n : Network) (h : Option Nat) (fvk : OrchardFvk)
    (actions : List OrchardAction)
    (hfvk : extract_orchard_fvk c vk = some fvk)
    (hacts : tx.orchardBundle = some actions) :
    ∃ r, scan_transaction c tx vk n h = Except.ok r ∧
      (r.notes.filter fun note => note.pool == "orchard").length = actions.length ∧
      ∀ note ∈ r.notes.filter (fun note => note.pool == "orchard"),
        note.value ≠ 0 → note.nullifier ≠ none := by
  have hitems : ∃ items, c.ufvkDecode vk = some items ∧
      findOrchardFvk c items = some fvk := by
    unfold extract_orchard_fvk at hfvk
    cases hu : c.ufvkDecode vk with
    | none => rw [hu] at hfvk; exact absurd hfvk (by simp)
    | some items => rw [hu] at hfvk; exact ⟨items, rfl, hfvk⟩
  obtain ⟨items, hu, hfind⟩ := hitems
  have horch : items.any FvkItem.isOrchardItem = true := findOrchardFvk_any c items fvk hfind
  have hcaps : parse_viewing_key_capabilities c vk = Except.ok
      (items.any FvkItem.isSaplingItem, true, items.any FvkItem.isP2pkhItem) := by
    simp [parse_viewing_key_capabilities, hu, fvkCapsLoop_eq, horch]
  refine ⟨scanWithCaps c tx
      (items.any FvkItem.isSaplingItem, true, items.any FvkItem.isP2pkhItem)
      (extract_orchard_fvk c vk),
    scan_transaction_ok c tx vk n h _ hcaps, ?_, ?_⟩
  · rw [notes_filter_orchard]
    unfold orchardSection
    rw [hacts, hfvk]
    simp [orchardScanNotes, List.enum_length]
  · intro note hnote hval
    rw [notes_filter_orchard] at hnote
    unfold orchardSection at hnote
    rw [hacts, hfvk] at hnote
    simp only [if_true] at hnote
    simp only [orchardScanNotes, Option.map_some, List.mem_map] at hnote
    obtain ⟨p, hmem, hp⟩ := hnote
    rw [← hp] at hval ⊢
    cases hdec : tryNoteDecryption fvk.ivkExposed p.2 with
    | none => simp [orchardScanNote, hdec] at hval
    | some dn => simp [orchardScanNote, hdec]

/-- Witness for C1 under the concrete fixture: one action, one Orchard note,
and the value-implies-nullifier inclusion. -/
theorem scan_orchard_count_and_nullifier_witness :
    ∃ r, scan_transaction cryptoA txA "ufvkA" Network.MainNetwork none = Except.ok r ∧
      (r.notes.filter fun note => note.pool == "orchard").length =
        ([actA] : List OrchardAction).length ∧
      ∀ note ∈ r.notes.filter (fun note => note.pool == "orchard"),
        note.value ≠ 0 → note.nullifier ≠ none :=
  scan_orchard_count_and_nullifier cryptoA txA "ufvkA" Network.MainNetwork none
    (OrchardFvk.mk 5) [actA] rfl rfl

/-- Counterexample to C1 as stated: under a matching full viewing key a
zero-valued Orchard note still decrypts, so its nullifier is populated while
its value is zero, and the subset of pool-B notes with non-empty nullifier
differs from the subset with non-zero value. -/
theorem scan_orchard_subsets_differ_cex :
    extract_orchard_fvk cryptoA "ufvkA" = some (OrchardFvk.mk 5) ∧
    orchardActions txA = [actA] ∧
    actA.encKey = (OrchardFvk.mk 5).ivkExposed ∧
    scan_transaction cryptoA txA "ufvkA" Network.MainNetwork none = Except.ok rA ∧
    ¬ ((rA.notes.filter fun note => note.pool == "orchard").filter
          (fun note => note.nullifier.isSome) =
        (rA.notes.filter fun note => note.pool == "orchard").filter
          (fun note => note.value != 0)) := by
  refine ⟨rfl, rfl, rfl, by rfl, ?_⟩
  decide

/-- C2 (amended): when the viewing key resolves through the UIVK container
(the UFVK decode fails) with a pool-B item present, scan_transaction performs
no trial decryption at all: every pool-B action yields a ScannedNote with
value 0 and nullifier, memo and address all empty, because full-viewing-key
extraction recognizes only the UFVK container. -/
theorem uivk_scan_no_decryption (c : ScannerCrypto) (tx : Transaction) (vk : String)
    (n : Network) (h : Option Nat) (items : List IvkItem) (actions : List OrchardAction)
    (hu : c.ufvkDecode vk = none) (hi : c.uivkDecode vk = some items)
    (ho : items.any IvkItem.isOrchardItem = true)
    (hacts : tx.orchardBundle = some actions) :
    ∃ r, scan_transaction c tx vk n h = Except.ok r ∧
      r.notes.filter (fun note => note.pool == "orchard") =
        actions.enum.map fun p =>
          ScannedNote.mk p.1 "orchard" 0 (hexEncode p.2.cmx) none none none := by
  have hcaps : parse_viewing_key_capabilities c vk = Except.ok
      (items.any IvkItem.isSaplingItem, true, items.any IvkItem.isP2pkhItem) := by
    simp [parse_viewing_key_capabilities, hu, hi, ivkCapsLoop_eq, ho]
  have hext : extract_orchard_fvk c vk = none := by
    unfold extract_orchard_fvk
    rw [hu]
  refine ⟨_, scan_transaction_ok c tx vk n h _ hcaps, ?_⟩
  rw [notes_filter_orchard, hext]
  unfold orchardSection
  rw [hacts]
  rfl

/-- Witness for C2 under the concrete fixture: the UIVK key over the fixture
transaction yields one empty Orchard note. -/
theorem uivk_scan_no_decryption_witness :
    ∃ r, scan_transaction cryptoB txB "uivkB" Network.MainNetwork none = Except.ok r ∧
      r.notes.filter (fun note => note.pool == "orchard") =
        ([actB] : List OrchardAction).enum.map fun p =>
          ScannedNote.mk p.1 "orchard" 0 (hexEncode p.2.cmx) none none none :=
  uivk_scan_no_decryption cryptoB txB "uivkB" Network.MainNetwork none
    [IvkItem.orchard [7]] [actB] rfl rfl rfl rfl

/-- Counterexample to C2 as stated: the action of txB is addressed to the
Orchard key material carried by the UIVK (under the UFVK encoding of the same
key it decrypts with value 100), yet scanning with the UIVK string yields a
pool-B ScannedNote with value 0 and empty memo rather than a populated
value. -/
theorem uivk_scan_no_decryption_cex :
    cryptoB.ufvkDecode "uivkB" = none ∧
    cryptoB.uivkDecode "uivkB" = some [IvkItem.orchard [7]] ∧
    parse_viewing_key_capabilities cryptoB "uivkB" = Except.ok (false, true, false) ∧
    scan_transaction cryptoB txB "ufvkB" Network.MainNetwork none = Except.ok rBfull ∧
    (rBfull.notes.map fun note => note.value) = [100] ∧
    (rBfull.notes.map fun note => note.nullifier) = [some "09"] ∧
    scan_transaction cryptoB txB "uivkB" Network.MainNetwork none = Except.ok rBivk ∧
    (rBivk.notes.map fun note => note.value) = [0] ∧
    (rBivk.notes.map fun note => note.nullifier) = [none] ∧
    (rBivk.notes.map fun note => note.memo) = [none] := by
  refine ⟨rfl, rfl, by rfl, by rfl, by decide, by decide, by rfl, by decide, by decide,
    by decide⟩

end ZcashWallet
